import Mathlib

/-!
Shallow embedding of the bookmark-synchronization engine of
`fftemplates` (`src/bookmarks.rs`): the three-tier data model
(Bookmark → Place → Origin), the delta fetch, and the three insert
stages together with their orchestrator, followed by theorems about
the spec's claims.

Modelling conventions:
- each SQLite table is a list of rows in rowid order (rows are appended
  on insert, matching SQLite's rowid assignment for these tables);
- `select max(id)` on an empty table yields a single NULL row, which the
  Rust decodes with `row.get::<i64>(0)`; we model the NULL as `none` and
  the decode as `getI64`, which fails on `none` exactly as rusqlite's
  `InvalidColumnType` failure does;
- Rust's in-place mutation of the entity maps (`&mut`) is modelled by
  every stage returning the mutated collection alongside the store and
  the stage result, with mutation up to the failing entity preserved on
  error, exactly as a `return Err(...)` inside the Rust loop preserves it;
- `HashMap<i64, T>` is modelled as an association list `List (Int × T)`;
  its iteration order is the list order, so all theorems quantify over
  every possible iteration order;
- `eprintln!` logging in the orchestrator is modelled by an accumulated
  list of log messages.
-/

/-- `moz_bookmarks` row (all 13 columns of the Rust `Bookmark` struct). -/
structure Bookmark where
  id : Int
  type : Option Int
  fk : Option Int
  parent : Option Int
  position : Option Int
  title : Option String
  keyword_id : Option Int
  folder_type : Option String
  date_added : Option Int
  last_modified : Option Int
  guid : Option String
  sync_status : Int
  sync_change_counter : Int
deriving Repr, DecidableEq

/-- `moz_places` row (all 16 columns of the Rust `Place` struct). -/
structure Place where
  id : Int
  url : Option String
  title : Option String
  rev_host : Option String
  visit_count : Option Int
  hidden : Int
  typed : Int
  favicon_id : Option Int
  frecency : Int
  last_visit_date : Option Int
  guid : Option String
  foreign_count : Int
  url_hash : Int
  description : Option String
  preview_image_url : Option String
  origin_id : Option Int
deriving Repr, DecidableEq

/-- `moz_origins` row (the Rust `Origin` struct); `prefix_` models the
`prefix` column, a Lean keyword. -/
structure Origin where
  id : Int
  prefix_ : String
  host : String
  frecency : Int
deriving Repr, DecidableEq

/-- The destination (or snapshot) store: the three tables of
`places.sqlite`, each as a list of rows in rowid order. -/
structure Store where
  moz_bookmarks : List Bookmark
  moz_places : List Place
  moz_origins : List Origin
deriving Repr, DecidableEq

/-- `select max(id) from t`: NULL (`none`) on an empty table, otherwise
the maximum id. -/
def maxIdRow : List Int → Option Int
  | [] => none
  | i :: is =>
    match maxIdRow is with
    | none => some i
    | some m => some (max i m)

/-- rusqlite's `row.get::<i64>(_)` applied to a possibly-NULL column:
decoding NULL fails with `InvalidColumnType`. -/
def getI64 : Option Int → Except String Int
  | none => Except.error "InvalidColumnType"
  | some v => Except.ok v

/-- The per-row id computation shared by all three insert stages
(`bookmarks.rs` lines 395-398, 467-470, 571-574): given the destination
table's current max id `m` and the entity's current id `cur`, reassign
to `m + 1` unless `cur` is already exactly `m + 1`. -/
def reallocId (m cur : Int) : Int :=
  if m ≠ cur - 1 then m + 1 else cur

/-- Unconditional allocation the spec describes the guard as equivalent
to: always take the destination maximum plus one. -/
def allocNextId (m : Int) : Int := m + 1

theorem maxIdRow_none_iff {ids : List Int} : maxIdRow ids = none ↔ ids = [] := by
  cases ids with
  | nil => simp [maxIdRow]
  | cons a as =>
    simp only [maxIdRow]
    cases maxIdRow as <;> simp

theorem maxIdRow_isMax {ids : List Int} {m : Int} (h : maxIdRow ids = some m) :
    ∀ i ∈ ids, i ≤ m := by
  induction ids generalizing m with
  | nil => simp [maxIdRow] at h
  | cons a as ih =>
    intro i hi
    rcases List.mem_cons.mp hi with rfl | hi'
    · cases has : maxIdRow as with
      | none => simp [maxIdRow, has] at h; omega
      | some m' =>
        simp [maxIdRow, has] at h
        exact h ▸ le_max_left _ _
    · cases has : maxIdRow as with
      | none =>
        rw [maxIdRow_none_iff] at has
        subst has; simp at hi'
      | some m' =>
        simp [maxIdRow, has] at h
        exact le_trans (ih has _ hi') (h ▸ le_max_right _ _)

/-- The guarded reallocation is extensionally the unconditional one. -/
theorem reallocId_eq_allocNextId (m cur : Int) : reallocId m cur = allocNextId m := by
  unfold reallocId allocNextId
  split <;> omega

/-- What one insert stage leaves behind: the destination store and the
(possibly partially) mutated entity collection as they stand when the
stage returns, together with the stage's `Result`. On an `Err` return
inside the Rust loop, mutations already applied through `&mut` persist;
the model preserves them the same way. -/
structure StageOut (α : Type) where
  store : Store
  entities : α
  result : Except String Unit
deriving Repr

def insertOriginRow (conn : Store) (o : Origin) : Store :=
  { conn with moz_origins := conn.moz_origins ++ [o] }

def insertPlaceRow (conn : Store) (p : Place) : Store :=
  { conn with moz_places := conn.moz_places ++ [p] }

def insertBookmarkRow (conn : Store) (b : Bookmark) : Store :=
  { conn with moz_bookmarks := conn.moz_bookmarks ++ [b] }

/-- Natural-key equality between two origin rows: the
`prefix = … and host = … and frecency = …` condition. -/
def originKeyMatch (r o : Origin) : Bool :=
  r.prefix_ == o.prefix_ && r.host == o.host && r.frecency == o.frecency

/-- Whether a table already holds a row with `o`'s natural key. -/
def hasNaturalKey (tbl : List Origin) (o : Origin) : Bool :=
  tbl.any fun r => originKeyMatch r o

/-- The natural-key lookup of `insert_new_origins` (`bookmarks.rs` 526-558):
`select id from moz_origins where prefix = … and host = … and frecency = …`.
The Rust loop overwrites `new_id` with each returned row, so the last
matching row (in rowid order) wins. -/
def originExistingId (conn : Store) (o : Origin) : Option Int :=
  ((conn.moz_origins.filter fun r => originKeyMatch r o).map Origin.id).getLast?

/-- One iteration of the `insert_new_origins` loop body
(`bookmarks.rs` 542-584) on a single origin: dedup by natural key
(reuse the existing id, no insert), else allocate from the destination
max and insert. Returns the mutated origin and either the updated store
or the stage error. -/
def originsStep (conn : Store) (o : Origin) : Origin × Except String Store :=
  match originExistingId conn o with
  | some nid => ({ o with id := nid }, Except.ok conn)
  | none =>
    match getI64 (maxIdRow (conn.moz_origins.map Origin.id)) with
    | Except.error e => (o, Except.error e)
    | Except.ok m =>
      let o1 := { o with id := reallocId m o.id }
      (o1, Except.ok (insertOriginRow conn o1))

def insertOriginsLoop : Store → List (Int × Origin) → StageOut (List (Int × Origin))
  | conn, [] => ⟨conn, [], Except.ok ()⟩
  | conn, (k, o) :: os =>
    match originsStep conn o with
    | (o', Except.error e) => ⟨conn, (k, o') :: os, Except.error e⟩
    | (o', Except.ok conn') =>
      let r := insertOriginsLoop conn' os
      ⟨r.store, (k, o') :: r.entities, r.result⟩

/-- `insert_new_origins` (`bookmarks.rs` 519-587). The `HashMap<i64, Origin>`
is an association list iterated in list order. -/
def insert_new_origins (conn : Store) (new_origins : List (Int × Origin)) :
    StageOut (List (Int × Origin)) :=
  insertOriginsLoop conn new_origins

/-- One iteration of the `insert_new_places` loop body
(`bookmarks.rs` 457-514): allocate the id from the destination max,
then (only when an origins map was passed) rewrite `origin_id` through
it — a hard error when the referenced origin is missing — then insert. -/
def placesStep (conn : Store) (new_origins : Option (List (Int × Origin)))
    (p : Place) : Place × Except String Store :=
  match getI64 (maxIdRow (conn.moz_places.map Place.id)) with
  | Except.error e => (p, Except.error e)
  | Except.ok m =>
    let p1 := { p with id := reallocId m p.id }
    match new_origins with
    | none => (p1, Except.ok (insertPlaceRow conn p1))
    | some om =>
      match p1.origin_id with
      | none => (p1, Except.ok (insertPlaceRow conn p1))
      | some oid =>
        match om.lookup oid with
        | none => (p1, Except.error "unable to find origin from place")
        | some o =>
          let p2 := { p1 with origin_id := some o.id }
          (p2, Except.ok (insertPlaceRow conn p2))

def insertPlacesLoop (new_origins : Option (List (Int × Origin))) :
    Store → List (Int × Place) → StageOut (List (Int × Place))
  | conn, [] => ⟨conn, [], Except.ok ()⟩
  | conn, (k, p) :: ps =>
    match placesStep conn new_origins p with
    | (p', Except.error e) => ⟨conn, (k, p') :: ps, Except.error e⟩
    | (p', Except.ok conn') =>
      let r := insertPlacesLoop new_origins conn' ps
      ⟨r.store, (k, p') :: r.entities, r.result⟩

/-- `insert_new_places` (`bookmarks.rs` 442-517). -/
def insert_new_places (conn : Store) (new_places : List (Int × Place))
    (new_origins : Option (List (Int × Origin))) : StageOut (List (Int × Place)) :=
  insertPlacesLoop new_origins conn new_places

/-- One iteration of the `insert_new_bookmarks` loop body
(`bookmarks.rs` 385-437): allocate the id from the destination max,
then (only when a places map was passed) rewrite `fk` through it —
a hard error when the referenced place is missing — then insert. -/
def bookmarksStep (conn : Store) (new_places : Option (List (Int × Place)))
    (b : Bookmark) : Bookmark × Except String Store :=
  match getI64 (maxIdRow (conn.moz_bookmarks.map Bookmark.id)) with
  | Except.error e => (b, Except.error e)
  | Except.ok m =>
    let b1 := { b with id := reallocId m b.id }
    match new_places with
    | none => (b1, Except.ok (insertBookmarkRow conn b1))
    | some pm =>
      match b1.fk with
      | none => (b1, Except.ok (insertBookmarkRow conn b1))
      | some fk =>
        match pm.lookup fk with
        | none => (b1, Except.error "unable to find fk place from bookmark")
        | some p =>
          let b2 := { b1 with fk := some p.id }
          (b2, Except.ok (insertBookmarkRow conn b2))

def insertBookmarksLoop (new_places : Option (List (Int × Place))) :
    Store → List Bookmark → StageOut (List Bookmark)
  | conn, [] => ⟨conn, [], Except.ok ()⟩
  | conn, b :: bs =>
    match bookmarksStep conn new_places b with
    | (b', Except.error e) => ⟨conn, b' :: bs, Except.error e⟩
    | (b', Except.ok conn') =>
      let r := insertBookmarksLoop new_places conn' bs
      ⟨r.store, b' :: r.entities, r.result⟩

/-- `insert_new_bookmarks` (`bookmarks.rs` 369-440); operates on the
bookmark slice in its given (ascending original-id) order. -/
def insert_new_bookmarks (conn : Store) (new_bookmarks : List Bookmark)
    (new_places : Option (List (Int × Place))) : StageOut (List Bookmark) :=
  insertBookmarksLoop new_places conn new_bookmarks

/-- What `insert_new_entries` leaves behind: the final store, the mutated
collections, the `eprintln!` log, and the function's own `Result`. -/
structure OrchestratorOut where
  store : Store
  new_bookmarks : Option (List Bookmark)
  new_places : Option (List (Int × Place))
  new_origins : Option (List (Int × Origin))
  log : List String
  result : Except String Unit
deriving Repr

def stageLog (msg : String) : Except String Unit → List String
  | Except.ok _ => []
  | Except.error e => [msg ++ e]

/-- `insert_new_entries` (`bookmarks.rs` 334-367): runs the three insert
stages in dependency order, logging each stage failure with `eprintln!`
and continuing; its own return value is `Ok(())` on every path. -/
def insert_new_entries (conn : Store) (new_bookmarks : Option (List Bookmark))
    (new_places : Option (List (Int × Place)))
    (new_origins : Option (List (Int × Origin))) : OrchestratorOut :=
  let s1 : Store × Option (List (Int × Origin)) × List String :=
    match new_origins with
    | none => (conn, none, [])
    | some os =>
      let r := insert_new_origins conn os
      (r.store, some r.entities, stageLog "Error during insert new origins : " r.result)
  let s2 : Store × Option (List (Int × Place)) × List String :=
    match new_places with
    | none => (s1.1, none, [])
    | some ps =>
      let r := insert_new_places s1.1 ps s1.2.1
      (r.store, some r.entities, stageLog "Error during insert new places : " r.result)
  let s3 : Store × Option (List Bookmark) × List String :=
    match new_bookmarks with
    | none => (s2.1, none, [])
    | some bs =>
      let r := insert_new_bookmarks s2.1 bs s2.2.1
      (r.store, some r.entities, stageLog "Error during insert new bookmarks : " r.result)
  ⟨s3.1, s3.2.1, s2.2.1, s1.2.1, s1.2.2 ++ s2.2.2 ++ s3.2.2, Except.ok ()⟩

/-- `get_latest_bookmark` (`bookmarks.rs` 53-92):
`select … from moz_bookmarks order by id desc limit 1` — the row with
the maximum id, `None` on an empty table. -/
def get_latest_bookmark : List Bookmark → Option Bookmark
  | [] => none
  | b :: bs =>
    match get_latest_bookmark bs with
    | none => some b
    | some c => some (if b.id > c.id then b else c)

/-- Insertion into a list kept ascending by bookmark id. -/
def insertAscById (b : Bookmark) : List Bookmark → List Bookmark
  | [] => [b]
  | c :: cs => if b.id ≤ c.id then b :: c :: cs else c :: insertAscById b cs

/-- `order by id` over a result set: sort ascending by id. -/
def sortById : List Bookmark → List Bookmark
  | [] => []
  | b :: bs => insertAscById b (sortById bs)

/-- `get_bookmarks_between_two` (`bookmarks.rs` 143-218): resolve the
snapshot's own latest bookmark (no rows → `None`); `None` when
`first.id >= latest.id`; otherwise
`select … where id > first.id and id <= latest.id order by id`,
returning `None` for an empty result set. -/
def get_bookmarks_between_two (snapshot : List Bookmark) (first : Bookmark) :
    Option (List Bookmark) :=
  match get_latest_bookmark snapshot with
  | none => none
  | some latest =>
    if first.id ≥ latest.id then none
    else
      let rows := sortById (snapshot.filter fun b =>
        first.id < b.id && b.id ≤ latest.id)
      if rows.length = 0 then none else some rows

/-- A bookmark with only id, fk and the non-null counters populated,
used for concrete test rows. -/
def mkBookmark (i : Int) (fk : Option Int) : Bookmark :=
  ⟨i, none, fk, none, none, none, none, none, none, none, none, 0, 0⟩

/-- A place with only id and origin_id populated, used for concrete
test rows. -/
def mkPlace (i : Int) (oid : Option Int) : Place :=
  ⟨i, none, none, none, none, 0, 0, none, 0, none, none, 0, 0, none, none, oid⟩

/-- `freshIds init next` : starting from a table holding the ids `init`,
the ids `next` were appended one at a time, and each one was strictly
greater than every id present in the table at the moment it was
inserted. -/
def freshIds : List Int → List Int → Prop
  | _, [] => True
  | init, i :: rest => (∀ j ∈ init, j < i) ∧ freshIds (init ++ [i]) rest

theorem freshIds_gt_init {init next : List Int} (h : freshIds init next) :
    ∀ j ∈ init, ∀ n ∈ next, j < n := by
  induction next generalizing init with
  | nil => intro j _ n hn; simp at hn
  | cons i rest ih =>
    intro j hj n hn
    rcases List.mem_cons.mp hn with rfl | hn'
    · exact h.1 j hj
    · exact ih h.2 j (List.mem_append_left _ hj) n hn'

theorem freshIds_pairwise {init next : List Int} (h : freshIds init next) :
    next.Pairwise (· < ·) := by
  induction next generalizing init with
  | nil => exact List.Pairwise.nil
  | cons i rest ih =>
    refine List.Pairwise.cons ?_ (ih h.2)
    intro n hn
    exact freshIds_gt_init h.2 i (by simp) n hn

theorem originExistingId_none_iff {conn : Store} {o : Origin} :
    originExistingId conn o = none ↔ hasNaturalKey conn.moz_origins o = false := by
  unfold originExistingId hasNaturalKey
  rw [List.getLast?_eq_none_iff, List.map_eq_nil_iff, List.filter_eq_nil_iff]
  simp [List.any_eq_true]

theorem originExistingId_some {conn : Store} {o : Origin} {nid : Int}
    (h : originExistingId conn o = some nid) :
    ∃ r ∈ conn.moz_origins, originKeyMatch r o = true ∧ r.id = nid := by
  unfold originExistingId at h
  rcases List.mem_getLast?_eq_getLast (Option.mem_def.mpr h) with ⟨hne, hx⟩
  have hmem : nid ∈ (conn.moz_origins.filter fun r => originKeyMatch r o).map Origin.id :=
    hx ▸ List.getLast_mem hne
  rcases List.mem_map.mp hmem with ⟨r, hr, hid⟩
  rcases List.mem_filter.mp hr with ⟨hrc, hmatch⟩
  exact ⟨r, hrc, hmatch, hid⟩

theorem get_latest_bookmark_none_iff {bs : List Bookmark} :
    get_latest_bookmark bs = none ↔ bs = [] := by
  cases bs with
  | nil => simp [get_latest_bookmark]
  | cons b rest =>
    simp only [get_latest_bookmark]
    cases get_latest_bookmark rest <;> simp

theorem get_latest_bookmark_mem {bs : List Bookmark} {l : Bookmark}
    (h : get_latest_bookmark bs = some l) : l ∈ bs := by
  induction bs generalizing l with
  | nil => simp [get_latest_bookmark] at h
  | cons b rest ih =>
    simp only [get_latest_bookmark] at h
    cases hr : get_latest_bookmark rest with
    | none => rw [hr] at h; simp at h; simp [h]
    | some c =>
      rw [hr] at h
      simp at h
      by_cases hbc : b.id > c.id
      · simp [hbc] at h; simp [h]
      · simp [hbc] at h
        exact List.mem_cons_of_mem _ (h ▸ ih hr)

theorem get_latest_bookmark_isMax {bs : List Bookmark} {l : Bookmark}
    (h : get_latest_bookmark bs = some l) : ∀ b ∈ bs, b.id ≤ l.id := by
  induction bs generalizing l with
  | nil => simp [get_latest_bookmark] at h
  | cons b rest ih =>
    intro x hx
    simp only [get_latest_bookmark] at h
    cases hr : get_latest_bookmark rest with
    | none =>
      rw [hr] at h
      rw [get_latest_bookmark_none_iff] at hr
      subst hr
      simp at h hx
      simp [hx, h]
    | some c =>
      rw [hr] at h
      simp at h
      rcases List.mem_cons.mp hx with rfl | hx'
      · by_cases hbc : x.id > c.id
        · simp [hbc] at h; simp [h]
        · simp [hbc] at h
          subst h
          omega
      · have hc := ih hr x hx'
        by_cases hbc : b.id > c.id
        · simp [hbc] at h; subst h; omega
        · simp [hbc] at h; subst h; exact hc

theorem mem_insertAscById {b c : Bookmark} {l : List Bookmark} :
    c ∈ insertAscById b l ↔ c = b ∨ c ∈ l := by
  induction l with
  | nil => simp [insertAscById]
  | cons x xs ih =>
    simp only [insertAscById]
    by_cases hbx : b.id ≤ x.id
    · simp [hbx]
    · simp [hbx, ih]
      tauto

theorem mem_sortById {b : Bookmark} {l : List Bookmark} :
    b ∈ sortById l ↔ b ∈ l := by
  induction l with
  | nil => simp [sortById]
  | cons x xs ih =>
    simp only [sortById]
    rw [mem_insertAscById, ih]
    simp

theorem insertAscById_length {b : Bookmark} {l : List Bookmark} :
    (insertAscById b l).length = l.length + 1 := by
  induction l with
  | nil => simp [insertAscById]
  | cons x xs ih =>
    simp only [insertAscById]
    by_cases hbx : b.id ≤ x.id
    · simp [hbx]
    · simp [hbx, ih]

theorem sortById_length {l : List Bookmark} : (sortById l).length = l.length := by
  induction l with
  | nil => simp [sortById]
  | cons x xs ih => simp [sortById, insertAscById_length, ih]

theorem insertAscById_pairwise {b : Bookmark} {l : List Bookmark}
    (h : l.Pairwise fun x y => x.id ≤ y.id) :
    (insertAscById b l).Pairwise fun x y => x.id ≤ y.id := by
  induction l with
  | nil => simp [insertAscById]
  | cons x xs ih =>
    simp only [insertAscById]
    by_cases hbx : b.id ≤ x.id
    · simp only [if_pos hbx]
      refine List.Pairwise.cons ?_ h
      intro y hy
      rcases List.mem_cons.mp hy with rfl | hy'
      · exact hbx
      · exact le_trans hbx (List.rel_of_pairwise_cons h hy')
    · simp only [if_neg hbx]
      refine List.Pairwise.cons ?_ (ih (List.pairwise_cons.mp h).2)
      intro y hy
      rcases mem_insertAscById.mp hy with rfl | hy'
      · omega
      · exact List.rel_of_pairwise_cons h hy'

theorem sortById_pairwise {l : List Bookmark} :
    (sortById l).Pairwise fun x y => x.id ≤ y.id := by
  induction l with
  | nil => simp [sortById]
  | cons x xs ih => exact insertAscById_pairwise ih

theorem getI64_ok_iff {x : Option Int} {m : Int} :
    getI64 x = Except.ok m ↔ x = some m := by
  cases x <;> simp [getI64]

theorem originsStep_err {conn : Store} {o : Origin}
    (h1 : originExistingId conn o = none)
    (h2 : maxIdRow (conn.moz_origins.map Origin.id) = none) :
    originsStep conn o = (o, Except.error "InvalidColumnType") := by
  unfold originsStep
  rw [h1, h2]
  rfl

theorem originsStep_dedup {conn : Store} {o : Origin} {nid : Int}
    (h : originExistingId conn o = some nid) :
    originsStep conn o = ({ o with id := nid }, Except.ok conn) := by
  unfold originsStep
  rw [h]

theorem originsStep_insert {conn : Store} {o : Origin} {m : Int}
    (h1 : originExistingId conn o = none)
    (h2 : maxIdRow (conn.moz_origins.map Origin.id) = some m) :
    originsStep conn o = ({ o with id := m + 1 },
      Except.ok (insertOriginRow conn { o with id := m + 1 })) := by
  unfold originsStep
  rw [h1, h2]
  simp [getI64, reallocId_eq_allocNextId, allocNextId]

theorem placesStep_err {conn : Store} {g : Option (List (Int × Origin))} {p : Place}
    (h : maxIdRow (conn.moz_places.map Place.id) = none) :
    placesStep conn g p = (p, Except.error "InvalidColumnType") := by
  unfold placesStep
  rw [h]
  rfl

theorem placesStep_nomap {conn : Store} {p : Place} {m : Int}
    (h : maxIdRow (conn.moz_places.map Place.id) = some m) :
    placesStep conn none p = ({ p with id := m + 1 },
      Except.ok (insertPlaceRow conn { p with id := m + 1 })) := by
  unfold placesStep
  rw [h]
  simp [getI64, reallocId_eq_allocNextId, allocNextId]

theorem placesStep_noref {conn : Store} {g : List (Int × Origin)} {p : Place} {m : Int}
    (h : maxIdRow (conn.moz_places.map Place.id) = some m)
    (h2 : p.origin_id = none) :
    placesStep conn (some g) p = ({ p with id := m + 1 },
      Except.ok (insertPlaceRow conn { p with id := m + 1 })) := by
  unfold placesStep
  rw [h]
  simp [getI64, reallocId_eq_allocNextId, allocNextId, h2]

theorem placesStep_missing {conn : Store} {om : List (Int × Origin)} {p : Place}
    {m oid : Int}
    (h : maxIdRow (conn.moz_places.map Place.id) = some m)
    (h2 : p.origin_id = some oid)
    (h3 : List.lookup oid om = none) :
    placesStep conn (some om) p =
      ({ p with id := m + 1 }, Except.error "unable to find origin from place") := by
  unfold placesStep
  rw [h]
  simp [getI64, reallocId_eq_allocNextId, allocNextId, h2, h3]

theorem placesStep_found {conn : Store} {om : List (Int × Origin)} {p : Place}
    {m oid : Int} {o : Origin}
    (h : maxIdRow (conn.moz_places.map Place.id) = some m)
    (h2 : p.origin_id = some oid)
    (h3 : List.lookup oid om = some o) :
    placesStep conn (some om) p = ({ p with id := m + 1, origin_id := some o.id },
      Except.ok (insertPlaceRow conn { p with id := m + 1, origin_id := some o.id })) := by
  unfold placesStep
  rw [h]
  simp [getI64, reallocId_eq_allocNextId, allocNextId, h2, h3]

theorem bookmarksStep_err {conn : Store} {g : Option (List (Int × Place))} {b : Bookmark}
    (h : maxIdRow (conn.moz_bookmarks.map Bookmark.id) = none) :
    bookmarksStep conn g b = (b, Except.error "InvalidColumnType") := by
  unfold bookmarksStep
  rw [h]
  rfl

theorem bookmarksStep_nomap {conn : Store} {b : Bookmark} {m : Int}
    (h : maxIdRow (conn.moz_bookmarks.map Bookmark.id) = some m) :
    bookmarksStep conn none b = ({ b with id := m + 1 },
      Except.ok (insertBookmarkRow conn { b with id := m + 1 })) := by
  unfold bookmarksStep
  rw [h]
  simp [getI64, reallocId_eq_allocNextId, allocNextId]

theorem bookmarksStep_noref {conn : Store} {g : List (Int × Place)} {b : Bookmark} {m : Int}
    (h : maxIdRow (conn.moz_bookmarks.map Bookmark.id) = some m)
    (h2 : b.fk = none) :
    bookmarksStep conn (some g) b = ({ b with id := m + 1 },
      Except.ok (insertBookmarkRow conn { b with id := m + 1 })) := by
  unfold bookmarksStep
  rw [h]
  simp [getI64, reallocId_eq_allocNextId, allocNextId, h2]

theorem bookmarksStep_missing {conn : Store} {pm : List (Int × Place)} {b : Bookmark}
    {m f : Int}
    (h : maxIdRow (conn.moz_bookmarks.map Bookmark.id) = some m)
    (h2 : b.fk = some f)
    (h3 : List.lookup f pm = none) :
    bookmarksStep conn (some pm) b =
      ({ b with id := m + 1 }, Except.error "unable to find fk place from bookmark") := by
  unfold bookmarksStep
  rw [h]
  simp [getI64, reallocId_eq_allocNextId, allocNextId, h2, h3]

theorem bookmarksStep_found {conn : Store} {pm : List (Int × Place)} {b : Bookmark}
    {m f : Int} {p : Place}
    (h : maxIdRow (conn.moz_bookmarks.map Bookmark.id) = some m)
    (h2 : b.fk = some f)
    (h3 : List.lookup f pm = some p) :
    bookmarksStep conn (some pm) b = ({ b with id := m + 1, fk := some p.id },
      Except.ok (insertBookmarkRow conn { b with id := m + 1, fk := some p.id })) := by
  unfold bookmarksStep
  rw [h]
  simp [getI64, reallocId_eq_allocNextId, allocNextId, h2, h3]

theorem originsLoop_cons_ok {conn conn' : Store} {o o' : Origin} {k : Int}
    {l : List (Int × Origin)}
    (hstep : originsStep conn o = (o', Except.ok conn')) :
    insertOriginsLoop conn ((k, o) :: l) =
      ⟨(insertOriginsLoop conn' l).store, (k, o') :: (insertOriginsLoop conn' l).entities,
        (insertOriginsLoop conn' l).result⟩ := by
  simp [insertOriginsLoop, hstep]

theorem originsLoop_cons_err {conn : Store} {o o' : Origin} {e : String} {k : Int}
    {l : List (Int × Origin)}
    (hstep : originsStep conn o = (o', Except.error e)) :
    insertOriginsLoop conn ((k, o) :: l) = ⟨conn, (k, o') :: l, Except.error e⟩ := by
  simp [insertOriginsLoop, hstep]

theorem placesLoop_cons_ok {og : Option (List (Int × Origin))} {conn conn' : Store}
    {p p' : Place} {k : Int} {l : List (Int × Place)}
    (hstep : placesStep conn og p = (p', Except.ok conn')) :
    insertPlacesLoop og conn ((k, p) :: l) =
      ⟨(insertPlacesLoop og conn' l).store,
        (k, p') :: (insertPlacesLoop og conn' l).entities,
        (insertPlacesLoop og conn' l).result⟩ := by
  simp [insertPlacesLoop, hstep]

theorem placesLoop_cons_err {og : Option (List (Int × Origin))} {conn : Store}
    {p p' : Place} {e : String} {k : Int} {l : List (Int × Place)}
    (hstep : placesStep conn og p = (p', Except.error e)) :
    insertPlacesLoop og conn ((k, p) :: l) = ⟨conn, (k, p') :: l, Except.error e⟩ := by
  simp [insertPlacesLoop, hstep]

theorem bookmarksLoop_cons_ok {pm : Option (List (Int × Place))} {conn conn' : Store}
    {b b' : Bookmark} {l : List Bookmark}
    (hstep : bookmarksStep conn pm b = (b', Except.ok conn')) :
    insertBookmarksLoop pm conn (b :: l) =
      ⟨(insertBookmarksLoop pm conn' l).store,
        b' :: (insertBookmarksLoop pm conn' l).entities,
        (insertBookmarksLoop pm conn' l).result⟩ := by
  simp [insertBookmarksLoop, hstep]

theorem bookmarksLoop_cons_err {pm : Option (List (Int × Place))} {conn : Store}
    {b b' : Bookmark} {e : String} {l : List Bookmark}
    (hstep : bookmarksStep conn pm b = (b', Except.error e)) :
    insertBookmarksLoop pm conn (b :: l) = ⟨conn, b' :: l, Except.error e⟩ := by
  simp [insertBookmarksLoop, hstep]

theorem insertOriginsLoop_spec (os : List (Int × Origin)) (conn : Store) :
    ∃ new,
      (insertOriginsLoop conn os).store.moz_origins = conn.moz_origins ++ new ∧
      (insertOriginsLoop conn os).store.moz_places = conn.moz_places ∧
      (insertOriginsLoop conn os).store.moz_bookmarks = conn.moz_bookmarks ∧
      freshIds (conn.moz_origins.map Origin.id) (new.map Origin.id) := by
  induction os generalizing conn with
  | nil => exact ⟨[], by simp [insertOriginsLoop], rfl, rfl, trivial⟩
  | cons ko os ih =>
    obtain ⟨k, o⟩ := ko
    cases hEx : originExistingId conn o with
    | some nid =>
      have hred := originsLoop_cons_ok (k := k) (l := os) (originsStep_dedup hEx)
      rcases ih conn with ⟨new, h1, h2, h3, h4⟩
      exact ⟨new, by rw [hred]; exact h1, by rw [hred]; exact h2,
        by rw [hred]; exact h3, h4⟩
    | none =>
      cases hM : maxIdRow (conn.moz_origins.map Origin.id) with
      | none =>
        have hred := originsLoop_cons_err (k := k) (l := os) (originsStep_err hEx hM)
        exact ⟨[], by rw [hred]; simp, by rw [hred], by rw [hred], trivial⟩
      | some m =>
        have hred := originsLoop_cons_ok (k := k) (l := os) (originsStep_insert hEx hM)
        rcases ih (insertOriginRow conn { o with id := m + 1 }) with ⟨new, h1, h2, h3, h4⟩
        refine ⟨{ o with id := m + 1 } :: new, ?_, ?_, ?_, ?_, ?_⟩
        · rw [hred, h1]
          simp [insertOriginRow]
        · rw [hred, h2]; simp [insertOriginRow]
        · rw [hred, h3]; simp [insertOriginRow]
        · intro j hj
          have := maxIdRow_isMax hM j hj
          simp only [List.map_cons]
          omega
        · have hm : (insertOriginRow conn { o with id := m + 1 }).moz_origins.map Origin.id =
              conn.moz_origins.map Origin.id ++ [({ o with id := m + 1 } : Origin).id] := by
            simp [insertOriginRow]
          simpa using hm ▸ h4

theorem placesStep_chars (conn : Store) (og : Option (List (Int × Origin))) (p : Place) :
    (∃ p' e, placesStep conn og p = (p', Except.error e)) ∨
    (∃ p' m, placesStep conn og p = (p', Except.ok (insertPlaceRow conn p')) ∧
      maxIdRow (conn.moz_places.map Place.id) = some m ∧ p'.id = m + 1 ∧
      ∀ om, og = some om → p'.origin_id = none ∨
        ∃ x o, List.lookup x om = some o ∧ p'.origin_id = some o.id) := by
  cases hM : maxIdRow (conn.moz_places.map Place.id) with
  | none => exact Or.inl ⟨p, _, placesStep_err hM⟩
  | some m =>
    cases og with
    | none =>
      refine Or.inr ⟨{ p with id := m + 1 }, m, ?_, ?_, ?_, ?_⟩
      · exact placesStep_nomap hM
      · rfl
      · rfl
      · intro om h
        cases h
    | some om =>
      cases hO : p.origin_id with
      | none =>
        refine Or.inr ⟨{ p with id := m + 1 }, m, ?_, ?_, ?_, ?_⟩
        · exact placesStep_noref hM hO
        · rfl
        · rfl
        · intro om' _
          left
          simpa using hO
      | some oid =>
        cases hL : List.lookup oid om with
        | none => exact Or.inl ⟨_, _, placesStep_missing hM hO hL⟩
        | some o =>
          refine Or.inr ⟨{ p with id := m + 1, origin_id := some o.id }, m, ?_, ?_, ?_, ?_⟩
          · exact placesStep_found hM hO hL
          · rfl
          · rfl
          · intro om' h
            injection h with h
            subst h
            exact Or.inr ⟨oid, o, hL, rfl⟩

theorem bookmarksStep_chars (conn : Store) (pm : Option (List (Int × Place))) (b : Bookmark) :
    (∃ b' e, bookmarksStep conn pm b = (b', Except.error e)) ∨
    (∃ b' m, bookmarksStep conn pm b = (b', Except.ok (insertBookmarkRow conn b')) ∧
      maxIdRow (conn.moz_bookmarks.map Bookmark.id) = some m ∧ b'.id = m + 1 ∧
      ∀ ps, pm = some ps → b'.fk = none ∨
        ∃ x q, List.lookup x ps = some q ∧ b'.fk = some q.id) := by
  cases hM : maxIdRow (conn.moz_bookmarks.map Bookmark.id) with
  | none => exact Or.inl ⟨b, _, bookmarksStep_err hM⟩
  | some m =>
    cases pm with
    | none =>
      refine Or.inr ⟨{ b with id := m + 1 }, m, ?_, ?_, ?_, ?_⟩
      · exact bookmarksStep_nomap hM
      · rfl
      · rfl
      · intro ps h
        cases h
    | some ps =>
      cases hF : b.fk with
      | none =>
        refine Or.inr ⟨{ b with id := m + 1 }, m, ?_, ?_, ?_, ?_⟩
        · exact bookmarksStep_noref hM hF
        · rfl
        · rfl
        · intro ps' _
          left
          simpa using hF
      | some f =>
        cases hL : List.lookup f ps with
        | none => exact Or.inl ⟨_, _, bookmarksStep_missing hM hF hL⟩
        | some q =>
          refine Or.inr ⟨{ b with id := m + 1, fk := some q.id }, m, ?_, ?_, ?_, ?_⟩
          · exact bookmarksStep_found hM hF hL
          · rfl
          · rfl
          · intro ps' h
            injection h with h
            subst h
            exact Or.inr ⟨f, q, hL, rfl⟩

theorem insertPlacesLoop_spec (og : Option (List (Int × Origin)))
    (ps : List (Int × Place)) (conn : Store) :
    ∃ new,
      (insertPlacesLoop og conn ps).store.moz_places = conn.moz_places ++ new ∧
      (insertPlacesLoop og conn ps).store.moz_bookmarks = conn.moz_bookmarks ∧
      (insertPlacesLoop og conn ps).store.moz_origins = conn.moz_origins ∧
      freshIds (conn.moz_places.map Place.id) (new.map Place.id) ∧
      ∀ p' ∈ new, ∀ om, og = some om → p'.origin_id = none ∨
        ∃ x o, List.lookup x om = some o ∧ p'.origin_id = some o.id := by
  induction ps generalizing conn with
  | nil => exact ⟨[], by simp [insertPlacesLoop], rfl, rfl, trivial, by simp⟩
  | cons kp ps ih =>
    obtain ⟨k, p⟩ := kp
    rcases placesStep_chars conn og p with ⟨p', e, hstep⟩ | ⟨p', m, hstep, hM, hid, hchar⟩
    · have hred := placesLoop_cons_err (k := k) (l := ps) hstep
      exact ⟨[], by rw [hred]; simp, by rw [hred], by rw [hred], trivial, by simp⟩
    · have hred := placesLoop_cons_ok (k := k) (l := ps) hstep
      rcases ih (insertPlaceRow conn p') with ⟨new, h1, h2, h3, h4, h5⟩
      refine ⟨p' :: new, ?_, ?_, ?_, ?_, ?_⟩
      · rw [hred, h1]
        simp [insertPlaceRow]
      · rw [hred, h2]
        simp [insertPlaceRow]
      · rw [hred, h3]
        simp [insertPlaceRow]
      · show (∀ j ∈ conn.moz_places.map Place.id, j < p'.id) ∧
          freshIds (conn.moz_places.map Place.id ++ [p'.id]) (new.map Place.id)
        constructor
        · intro j hj
          have := maxIdRow_isMax hM j hj
          omega
        · have hm : (insertPlaceRow conn p').moz_places.map Place.id =
              conn.moz_places.map Place.id ++ [p'.id] := by simp [insertPlaceRow]
          exact hm ▸ h4
      · intro q hq
        rcases List.mem_cons.mp hq with rfl | hq'
        · exact hchar
        · exact h5 q hq'

theorem insertBookmarksLoop_spec (pm : Option (List (Int × Place)))
    (bs : List Bookmark) (conn : Store) :
    ∃ new,
      (insertBookmarksLoop pm conn bs).store.moz_bookmarks = conn.moz_bookmarks ++ new ∧
      (insertBookmarksLoop pm conn bs).store.moz_places = conn.moz_places ∧
      (insertBookmarksLoop pm conn bs).store.moz_origins = conn.moz_origins ∧
      freshIds (conn.moz_bookmarks.map Bookmark.id) (new.map Bookmark.id) ∧
      ∀ b' ∈ new, ∀ ps, pm = some ps → b'.fk = none ∨
        ∃ x q, List.lookup x ps = some q ∧ b'.fk = some q.id := by
  induction bs generalizing conn with
  | nil => exact ⟨[], by simp [insertBookmarksLoop], rfl, rfl, trivial, by simp⟩
  | cons b bs ih =>
    rcases bookmarksStep_chars conn pm b with ⟨b', e, hstep⟩ | ⟨b', m, hstep, hM, hid, hchar⟩
    · have hred := bookmarksLoop_cons_err (l := bs) hstep
      exact ⟨[], by rw [hred]; simp, by rw [hred], by rw [hred], trivial, by simp⟩
    · have hred := bookmarksLoop_cons_ok (l := bs) hstep
      rcases ih (insertBookmarkRow conn b') with ⟨new, h1, h2, h3, h4, h5⟩
      refine ⟨b' :: new, ?_, ?_, ?_, ?_, ?_⟩
      · rw [hred, h1]
        simp [insertBookmarkRow]
      · rw [hred, h2]
        simp [insertBookmarkRow]
      · rw [hred, h3]
        simp [insertBookmarkRow]
      · show (∀ j ∈ conn.moz_bookmarks.map Bookmark.id, j < b'.id) ∧
          freshIds (conn.moz_bookmarks.map Bookmark.id ++ [b'.id]) (new.map Bookmark.id)
        constructor
        · intro j hj
          have := maxIdRow_isMax hM j hj
          omega
        · have hm : (insertBookmarkRow conn b').moz_bookmarks.map Bookmark.id =
              conn.moz_bookmarks.map Bookmark.id ++ [b'.id] := by simp [insertBookmarkRow]
          exact hm ▸ h4
      · intro q hq
        rcases List.mem_cons.mp hq with rfl | hq'
        · exact hchar
        · exact h5 q hq'

theorem insertOriginsLoop_dedup (os : List (Int × Origin)) (conn : Store)
    (h : ∀ p ∈ os, hasNaturalKey conn.moz_origins p.2 = true) :
    (insertOriginsLoop conn os).store = conn ∧
    (insertOriginsLoop conn os).result = Except.ok () ∧
    ∀ p ∈ (insertOriginsLoop conn os).entities, ∃ r ∈ conn.moz_origins,
      originKeyMatch r p.2 = true ∧ p.2.id = r.id := by
  induction os with
  | nil => exact ⟨rfl, rfl, by simp [insertOriginsLoop]⟩
  | cons ko os ih =>
    obtain ⟨k, o⟩ := ko
    have hk : hasNaturalKey conn.moz_origins o = true := h (k, o) (by simp)
    cases hEx : originExistingId conn o with
    | none =>
      rw [originExistingId_none_iff] at hEx
      rw [hEx] at hk
      simp at hk
    | some nid =>
      have hred := originsLoop_cons_ok (k := k) (l := os) (originsStep_dedup hEx)
      rcases ih (fun p hp => h p (List.mem_cons_of_mem _ hp)) with ⟨h1, h2, h3⟩
      refine ⟨by rw [hred]; exact h1, by rw [hred]; exact h2, ?_⟩
      rw [hred]
      intro p hp
      rcases List.mem_cons.mp hp with rfl | hp'
      · rcases originExistingId_some hEx with ⟨r, hr, hmatch, hrid⟩
        exact ⟨r, hr, hmatch, hrid.symm⟩
      · exact h3 p hp'

theorem insertOriginsLoop_keys (os : List (Int × Origin)) (conn : Store)
    (h : (insertOriginsLoop conn os).result = Except.ok ()) :
    ∀ p ∈ os, hasNaturalKey (insertOriginsLoop conn os).store.moz_origins p.2 = true := by
  induction os generalizing conn with
  | nil => simp
  | cons ko os ih =>
    obtain ⟨k, o⟩ := ko
    intro p hp
    cases hEx : originExistingId conn o with
    | some nid =>
      have hred := originsLoop_cons_ok (k := k) (l := os) (originsStep_dedup hEx)
      rw [hred] at h ⊢
      rcases List.mem_cons.mp hp with rfl | hp'
      · rcases originExistingId_some hEx with ⟨r, hr, hmatch, _⟩
        rcases insertOriginsLoop_spec os conn with ⟨new, h1, _, _, _⟩
        rw [h1]
        unfold hasNaturalKey
        rw [List.any_eq_true]
        exact ⟨r, List.mem_append_left _ hr, hmatch⟩
      · exact ih conn h p hp'
    | none =>
      cases hM : maxIdRow (conn.moz_origins.map Origin.id) with
      | none =>
        have hred := originsLoop_cons_err (k := k) (l := os) (originsStep_err hEx hM)
        rw [hred] at h
        simp at h
      | some m =>
        have hred := originsLoop_cons_ok (k := k) (l := os) (originsStep_insert hEx hM)
        rw [hred] at h ⊢
        rcases List.mem_cons.mp hp with rfl | hp'
        · rcases insertOriginsLoop_spec os (insertOriginRow conn { o with id := m + 1 }) with
            ⟨new, h1, _, _, _⟩
          rw [h1]
          unfold hasNaturalKey
          rw [List.any_eq_true]
          refine ⟨{ o with id := m + 1 }, ?_, ?_⟩
          · apply List.mem_append_left
            simp [insertOriginRow]
          · simp [originKeyMatch]
        · exact ih (insertOriginRow conn { o with id := m + 1 }) h p hp'

theorem insertOriginsLoop_entities (os : List (Int × Origin)) (conn : Store)
    (h : (insertOriginsLoop conn os).result = Except.ok ()) :
    ∀ p ∈ (insertOriginsLoop conn os).entities,
      ∃ r ∈ (insertOriginsLoop conn os).store.moz_origins,
        originKeyMatch r p.2 = true ∧ r.id = p.2.id := by
  induction os generalizing conn with
  | nil => simp [insertOriginsLoop]
  | cons ko os ih =>
    obtain ⟨k, o⟩ := ko
    intro p hp
    cases hEx : originExistingId conn o with
    | some nid =>
      have hred := originsLoop_cons_ok (k := k) (l := os) (originsStep_dedup hEx)
      rw [hred] at h hp ⊢
      rcases List.mem_cons.mp hp with rfl | hp'
      · rcases originExistingId_some hEx with ⟨r, hr, hmatch, hrid⟩
        rcases insertOriginsLoop_spec os conn with ⟨new, h1, _, _, _⟩
        rw [h1]
        exact ⟨r, List.mem_append_left _ hr, hmatch, hrid⟩
      · exact ih conn h p hp'
    | none =>
      cases hM : maxIdRow (conn.moz_origins.map Origin.id) with
      | none =>
        have hred := originsLoop_cons_err (k := k) (l := os) (originsStep_err hEx hM)
        rw [hred] at h
        simp at h
      | some m =>
        have hred := originsLoop_cons_ok (k := k) (l := os) (originsStep_insert hEx hM)
        rw [hred] at h hp ⊢
        rcases List.mem_cons.mp hp with rfl | hp'
        · rcases insertOriginsLoop_spec os (insertOriginRow conn { o with id := m + 1 }) with
            ⟨new, h1, _, _, _⟩
          rw [h1]
          refine ⟨{ o with id := m + 1 }, ?_, ?_, rfl⟩
          · apply List.mem_append_left
            simp [insertOriginRow]
          · simp [originKeyMatch]
        · exact ih (insertOriginRow conn { o with id := m + 1 }) h p hp'

theorem insertPlacesLoop_ok_refs (om : List (Int × Origin)) (ps : List (Int × Place))
    (conn : Store)
    (h : (insertPlacesLoop (some om) conn ps).result = Except.ok ()) :
    ∀ p ∈ ps, ∀ oid, p.2.origin_id = some oid → ∃ o, List.lookup oid om = some o := by
  induction ps generalizing conn with
  | nil => simp
  | cons kp ps ih =>
    obtain ⟨k, p⟩ := kp
    intro q hq oid hoid
    cases hM : maxIdRow (conn.moz_places.map Place.id) with
    | none =>
      have hred := placesLoop_cons_err (k := k) (l := ps)
        (placesStep_err (g := some om) (p := p) hM)
      rw [hred] at h
      simp at h
    | some m =>
      rcases List.mem_cons.mp hq with rfl | hq'
      · cases hL : List.lookup oid om with
        | some o => exact ⟨o, rfl⟩
        | none =>
          have hred := placesLoop_cons_err (k := k) (l := ps) (placesStep_missing hM hoid hL)
          rw [hred] at h
          simp at h
      · cases hO : p.origin_id with
        | none =>
          have hred := placesLoop_cons_ok (k := k) (l := ps) (placesStep_noref (g := om) hM hO)
          rw [hred] at h
          exact ih _ h q hq' oid hoid
        | some oid2 =>
          cases hL2 : List.lookup oid2 om with
          | none =>
            have hred := placesLoop_cons_err (k := k) (l := ps) (placesStep_missing hM hO hL2)
            rw [hred] at h
            simp at h
          | some o2 =>
            have hred := placesLoop_cons_ok (k := k) (l := ps) (placesStep_found hM hO hL2)
            rw [hred] at h
            exact ih _ h q hq' oid hoid

theorem insertBookmarksLoop_ok_refs (pm : List (Int × Place)) (bs : List Bookmark)
    (conn : Store)
    (h : (insertBookmarksLoop (some pm) conn bs).result = Except.ok ()) :
    ∀ b ∈ bs, ∀ f, b.fk = some f → ∃ q, List.lookup f pm = some q := by
  induction bs generalizing conn with
  | nil => simp
  | cons b bs ih =>
    intro c hc f hf
    cases hM : maxIdRow (conn.moz_bookmarks.map Bookmark.id) with
    | none =>
      have hred := bookmarksLoop_cons_err (l := bs)
        (bookmarksStep_err (g := some pm) (b := b) hM)
      rw [hred] at h
      simp at h
    | some m =>
      rcases List.mem_cons.mp hc with rfl | hc'
      · cases hL : List.lookup f pm with
        | some q => exact ⟨q, rfl⟩
        | none =>
          have hred := bookmarksLoop_cons_err (l := bs) (bookmarksStep_missing hM hf hL)
          rw [hred] at h
          simp at h
      · cases hF : b.fk with
        | none =>
          have hred := bookmarksLoop_cons_ok (l := bs) (bookmarksStep_noref (g := pm) hM hF)
          rw [hred] at h
          exact ih _ h c hc' f hf
        | some f2 =>
          cases hL2 : List.lookup f2 pm with
          | none =>
            have hred := bookmarksLoop_cons_err (l := bs) (bookmarksStep_missing hM hF hL2)
            rw [hred] at h
            simp at h
          | some q2 =>
            have hred := bookmarksLoop_cons_ok (l := bs) (bookmarksStep_found hM hF hL2)
            rw [hred] at h
            exact ih _ h c hc' f hf

/-- C1: every row freshly inserted by any of the three insert stages is
inserted under an id strictly greater than every id present in its
destination table at the moment of that insert (`freshIds`), and hence
the ids allocated for the same table within a single run form a strictly
increasing sequence. -/
theorem C1_monotonic_allocation (conn₁ conn₂ conn₃ : Store)
    (os : List (Int × Origin)) (ps : List (Int × Place)) (bs : List Bookmark)
    (og : Option (List (Int × Origin))) (pm : Option (List (Int × Place))) :
    (∃ new, (insert_new_origins conn₁ os).store.moz_origins = conn₁.moz_origins ++ new ∧
      freshIds (conn₁.moz_origins.map Origin.id) (new.map Origin.id) ∧
      (new.map Origin.id).Pairwise (· < ·)) ∧
    (∃ new, (insert_new_places conn₂ ps og).store.moz_places = conn₂.moz_places ++ new ∧
      freshIds (conn₂.moz_places.map Place.id) (new.map Place.id) ∧
      (new.map Place.id).Pairwise (· < ·)) ∧
    (∃ new, (insert_new_bookmarks conn₃ bs pm).store.moz_bookmarks =
        conn₃.moz_bookmarks ++ new ∧
      freshIds (conn₃.moz_bookmarks.map Bookmark.id) (new.map Bookmark.id) ∧
      (new.map Bookmark.id).Pairwise (· < ·)) := by
  refine ⟨?_, ?_, ?_⟩
  · rcases insertOriginsLoop_spec os conn₁ with ⟨new, h1, _, _, h4⟩
    exact ⟨new, h1, h4, freshIds_pairwise h4⟩
  · rcases insertPlacesLoop_spec og ps conn₂ with ⟨new, h1, _, _, h4, _⟩
    exact ⟨new, h1, h4, freshIds_pairwise h4⟩
  · rcases insertBookmarksLoop_spec pm bs conn₃ with ⟨new, h1, _, _, h4, _⟩
    exact ⟨new, h1, h4, freshIds_pairwise h4⟩

/-- C9: the guarded per-row id reallocation (`reallocId`) is
extensionally equal to unconditionally assigning `max + 1`
(`allocNextId`), and consequently every entity freshly inserted by any
of the three stages is inserted under the destination table's maximum
id, as read immediately before that insert, plus one — regardless of
the entity's incoming snapshot id. -/
theorem C9_guard_refines_unconditional :
    (∀ m cur, reallocId m cur = allocNextId m) ∧
    (∀ conn o o' conn', originsStep conn o = (o', Except.ok conn') →
      conn'.moz_origins = conn.moz_origins ∨
      ∃ m, maxIdRow (conn.moz_origins.map Origin.id) = some m ∧ o'.id = m + 1 ∧
        conn'.moz_origins = conn.moz_origins ++ [o']) ∧
    (∀ conn og p p' conn', placesStep conn og p = (p', Except.ok conn') →
      ∃ m, maxIdRow (conn.moz_places.map Place.id) = some m ∧ p'.id = m + 1 ∧
        conn'.moz_places = conn.moz_places ++ [p']) ∧
    (∀ conn pm b b' conn', bookmarksStep conn pm b = (b', Except.ok conn') →
      ∃ m, maxIdRow (conn.moz_bookmarks.map Bookmark.id) = some m ∧ b'.id = m + 1 ∧
        conn'.moz_bookmarks = conn.moz_bookmarks ++ [b']) := by
  refine ⟨reallocId_eq_allocNextId, ?_, ?_, ?_⟩
  · intro conn o o' conn' hstep
    cases hEx : originExistingId conn o with
    | some nid =>
      rw [originsStep_dedup hEx] at hstep
      simp only [Prod.mk.injEq, Except.ok.injEq] at hstep
      obtain ⟨rfl, rfl⟩ := hstep
      exact Or.inl rfl
    | none =>
      cases hM : maxIdRow (conn.moz_origins.map Origin.id) with
      | none =>
        rw [originsStep_err hEx hM] at hstep
        simp at hstep
      | some m =>
        rw [originsStep_insert hEx hM] at hstep
        simp only [Prod.mk.injEq, Except.ok.injEq] at hstep
        obtain ⟨rfl, rfl⟩ := hstep
        exact Or.inr ⟨m, rfl, rfl, by simp [insertOriginRow]⟩
  · intro conn og p p' conn' hstep
    rcases placesStep_chars conn og p with ⟨p'', e, hs⟩ | ⟨p'', m, hs, hM, hid, _⟩
    · rw [hs] at hstep
      simp at hstep
    · rw [hs] at hstep
      simp only [Prod.mk.injEq, Except.ok.injEq] at hstep
      obtain ⟨rfl, rfl⟩ := hstep
      exact ⟨m, hM, hid, by simp [insertPlaceRow]⟩
  · intro conn pm b b' conn' hstep
    rcases bookmarksStep_chars conn pm b with ⟨b'', e, hs⟩ | ⟨b'', m, hs, hM, hid, _⟩
    · rw [hs] at hstep
      simp at hstep
    · rw [hs] at hstep
      simp only [Prod.mk.injEq, Except.ok.injEq] at hstep
      obtain ⟨rfl, rfl⟩ := hstep
      exact ⟨m, hM, hid, by simp [insertBookmarkRow]⟩

theorem C9_witness :
    ∃ m, maxIdRow ((⟨[], [mkPlace 1 none], []⟩ : Store).moz_places.map Place.id) = some m ∧
      (mkPlace 2 none).id = m + 1 ∧
      (insertPlaceRow ⟨[], [mkPlace 1 none], []⟩ (mkPlace 2 none)).moz_places =
        (⟨[], [mkPlace 1 none], []⟩ : Store).moz_places ++ [mkPlace 2 none] :=
  C9_guard_refines_unconditional.2.2.1 ⟨[], [mkPlace 1 none], []⟩ none (mkPlace 7 none)
    (mkPlace 2 none) (insertPlaceRow ⟨[], [mkPlace 1 none], []⟩ (mkPlace 2 none)) rfl

/-- C10: when the destination table is empty, `select max(id)` yields a
NULL that fails to decode, so each insert stage that has at least one
entity to process returns an error before inserting anything: no id is
ever allocated from an empty destination table. -/
theorem C10_empty_table_error (conn₁ conn₂ conn₃ : Store)
    (k₁ : Int) (o : Origin) (os : List (Int × Origin))
    (k₂ : Int) (p : Place) (ps : List (Int × Place)) (og : Option (List (Int × Origin)))
    (b : Bookmark) (bs : List Bookmark) (pm : Option (List (Int × Place)))
    (h₁ : conn₁.moz_origins = []) (h₂ : conn₂.moz_places = [])
    (h₃ : conn₃.moz_bookmarks = []) :
    ((insert_new_origins conn₁ ((k₁, o) :: os)).result =
        Except.error "InvalidColumnType" ∧
      (insert_new_origins conn₁ ((k₁, o) :: os)).store = conn₁) ∧
    ((insert_new_places conn₂ ((k₂, p) :: ps) og).result =
        Except.error "InvalidColumnType" ∧
      (insert_new_places conn₂ ((k₂, p) :: ps) og).store = conn₂) ∧
    ((insert_new_bookmarks conn₃ (b :: bs) pm).result =
        Except.error "InvalidColumnType" ∧
      (insert_new_bookmarks conn₃ (b :: bs) pm).store = conn₃) := by
  refine ⟨?_, ?_, ?_⟩
  · have hEx : originExistingId conn₁ o = none := by
      rw [originExistingId_none_iff]
      unfold hasNaturalKey
      rw [h₁]
      rfl
    have hM : maxIdRow (conn₁.moz_origins.map Origin.id) = none := by
      rw [h₁]
      rfl
    have hred := originsLoop_cons_err (k := k₁) (l := os) (originsStep_err hEx hM)
    unfold insert_new_origins
    rw [hred]
    exact ⟨rfl, rfl⟩
  · have hM : maxIdRow (conn₂.moz_places.map Place.id) = none := by
      rw [h₂]
      rfl
    have hred := placesLoop_cons_err (k := k₂) (l := ps)
      (placesStep_err (g := og) (p := p) hM)
    unfold insert_new_places
    rw [hred]
    exact ⟨rfl, rfl⟩
  · have hM : maxIdRow (conn₃.moz_bookmarks.map Bookmark.id) = none := by
      rw [h₃]
      rfl
    have hred := bookmarksLoop_cons_err (l := bs)
      (bookmarksStep_err (g := pm) (b := b) hM)
    unfold insert_new_bookmarks
    rw [hred]
    exact ⟨rfl, rfl⟩

theorem C10_witness :
    ((insert_new_origins ⟨[], [], []⟩ [(1, ⟨1, "http://", "example.com", 10⟩)]).result =
        Except.error "InvalidColumnType" ∧
      (insert_new_origins ⟨[], [], []⟩ [(1, ⟨1, "http://", "example.com", 10⟩)]).store =
        ⟨[], [], []⟩) ∧
    ((insert_new_places ⟨[], [], []⟩ [(1, mkPlace 1 none)] none).result =
        Except.error "InvalidColumnType" ∧
      (insert_new_places ⟨[], [], []⟩ [(1, mkPlace 1 none)] none).store = ⟨[], [], []⟩) ∧
    ((insert_new_bookmarks ⟨[], [], []⟩ [mkBookmark 1 none] none).result =
        Except.error "InvalidColumnType" ∧
      (insert_new_bookmarks ⟨[], [], []⟩ [mkBookmark 1 none] none).store = ⟨[], [], []⟩) :=
  C10_empty_table_error ⟨[], [], []⟩ ⟨[], [], []⟩ ⟨[], [], []⟩
    1 ⟨1, "http://", "example.com", 10⟩ [] 1 (mkPlace 1 none) [] none
    (mkBookmark 1 none) [] none rfl rfl rfl

/-- C3: the delta fetch returns `none` when the snapshot store has no
bookmarks or when the anchor's id is at least the snapshot latest's id;
otherwise it returns exactly the bookmark rows with
`anchor.id < id ≤ latest.id`, ordered ascending by id, and `none` when
that range holds no rows. -/
theorem C3_delta_fetch (snapshot : List Bookmark) (A : Bookmark) :
    (snapshot = [] → get_bookmarks_between_two snapshot A = none) ∧
    ∀ L, get_latest_bookmark snapshot = some L →
      (A.id ≥ L.id → get_bookmarks_between_two snapshot A = none) ∧
      (∀ rows, get_bookmarks_between_two snapshot A = some rows →
        (∀ b, b ∈ rows ↔ b ∈ snapshot ∧ A.id < b.id ∧ b.id ≤ L.id) ∧
        rows.Pairwise fun x y => x.id ≤ y.id) ∧
      (get_bookmarks_between_two snapshot A = none →
        ∀ b ∈ snapshot, ¬(A.id < b.id ∧ b.id ≤ L.id)) := by
  constructor
  · intro h
    subst h
    rfl
  · intro L hL
    have hunf : get_bookmarks_between_two snapshot A =
        (if A.id ≥ L.id then none
         else if (sortById (snapshot.filter fun b =>
            A.id < b.id && b.id ≤ L.id)).length = 0 then none
         else some (sortById (snapshot.filter fun b =>
            A.id < b.id && b.id ≤ L.id))) := by
      unfold get_bookmarks_between_two
      rw [hL]
    by_cases hge : A.id ≥ L.id
    · rw [if_pos hge] at hunf
      refine ⟨fun _ => hunf, ?_, ?_⟩
      · intro rows hrows
        rw [hunf] at hrows
        cases hrows
      · intro _ b _ hb
        omega
    · rw [if_neg hge] at hunf
      by_cases hlen : (sortById (snapshot.filter fun b =>
          A.id < b.id && b.id ≤ L.id)).length = 0
      · rw [if_pos hlen] at hunf
        refine ⟨fun h => absurd h hge, ?_, ?_⟩
        · intro rows hrows
          rw [hunf] at hrows
          cases hrows
        · intro _ b hb hrange
          rw [sortById_length, List.length_eq_zero] at hlen
          have : b ∈ snapshot.filter fun b => A.id < b.id && b.id ≤ L.id := by
            rw [List.mem_filter]
            refine ⟨hb, ?_⟩
            simp only [Bool.and_eq_true, decide_eq_true_eq]
            exact hrange
          rw [hlen] at this
          cases this
      · rw [if_neg hlen] at hunf
        refine ⟨fun h => absurd h hge, ?_, ?_⟩
        · intro rows hrows
          rw [hunf] at hrows
          injection hrows with hrows
          subst hrows
          constructor
          · intro b
            rw [mem_sortById, List.mem_filter]
            simp only [Bool.and_eq_true, decide_eq_true_eq]
          · exact sortById_pairwise
        · intro hnone
          rw [hunf] at hnone
          cases hnone

theorem C3_witness :
    (∀ b, b ∈ [mkBookmark 2 none] ↔ b ∈ [mkBookmark 1 none, mkBookmark 2 none] ∧
      (mkBookmark 1 none).id < b.id ∧ b.id ≤ (mkBookmark 2 none).id) ∧
    ([mkBookmark 2 none] : List Bookmark).Pairwise (fun x y => x.id ≤ y.id) :=
  ((C3_delta_fetch [mkBookmark 1 none, mkBookmark 2 none] (mkBookmark 1 none)).2
    (mkBookmark 2 none) rfl).2.1 [mkBookmark 2 none] rfl

/-- C2: an origin whose natural key (prefix, host, frecency) already
matches a destination row is not inserted and its id is remapped to the
existing row's id (scenario: destination row (5, "http://",
"example.com", 10) and input origin (1, …) give no insert and mapping
1 ↦ 5); when every input origin's key is already present the stage
changes nothing, and rerunning the reconciliation over the same input
after a successful run inserts zero additional rows. -/
theorem C2_origin_dedup_idempotent :
    ((insert_new_origins ⟨[], [], [⟨5, "http://", "example.com", 10⟩]⟩
        [(1, ⟨1, "http://", "example.com", 10⟩)]).store =
          ⟨[], [], [⟨5, "http://", "example.com", 10⟩]⟩ ∧
      (insert_new_origins ⟨[], [], [⟨5, "http://", "example.com", 10⟩]⟩
        [(1, ⟨1, "http://", "example.com", 10⟩)]).entities =
          [(1, ⟨5, "http://", "example.com", 10⟩)] ∧
      (insert_new_origins ⟨[], [], [⟨5, "http://", "example.com", 10⟩]⟩
        [(1, ⟨1, "http://", "example.com", 10⟩)]).result = Except.ok ()) ∧
    (∀ conn os, (∀ p ∈ os, hasNaturalKey conn.moz_origins p.2 = true) →
      (insert_new_origins conn os).store = conn ∧
      (insert_new_origins conn os).result = Except.ok () ∧
      ∀ p ∈ (insert_new_origins conn os).entities, ∃ r ∈ conn.moz_origins,
        originKeyMatch r p.2 = true ∧ p.2.id = r.id) ∧
    (∀ conn os, (insert_new_origins conn os).result = Except.ok () →
      (insert_new_origins (insert_new_origins conn os).store os).store =
        (insert_new_origins conn os).store) := by
  refine ⟨⟨rfl, rfl, rfl⟩, ?_, ?_⟩
  · intro conn os h
    exact insertOriginsLoop_dedup os conn h
  · intro conn os h
    exact (insertOriginsLoop_dedup os _ (insertOriginsLoop_keys os conn h)).1

theorem C2_witness :
    (insert_new_origins (insert_new_origins ⟨[], [], [⟨5, "http://", "example.com", 10⟩]⟩
        [(1, ⟨1, "http://", "example.com", 10⟩)]).store
        [(1, ⟨1, "http://", "example.com", 10⟩)]).store =
      (insert_new_origins ⟨[], [], [⟨5, "http://", "example.com", 10⟩]⟩
        [(1, ⟨1, "http://", "example.com", 10⟩)]).store :=
  C2_origin_dedup_idempotent.2.2 ⟨[], [], [⟨5, "http://", "example.com", 10⟩]⟩
    [(1, ⟨1, "http://", "example.com", 10⟩)] rfl

theorem lookup_mem {α β : Type} [BEq α] [LawfulBEq α]
    {l : List (α × β)} {x : α} {b : β} (h : List.lookup x l = some b) : (x, b) ∈ l := by
  induction l with
  | nil => simp [List.lookup] at h
  | cons kv l ih =>
    obtain ⟨k, v⟩ := kv
    cases hk : x == k with
    | true =>
      simp [List.lookup, hk] at h
      have hxk : x = k := eq_of_beq hk
      subst hxk
      subst h
      exact List.mem_cons_self _ _
    | false =>
      simp [List.lookup, hk] at h
      exact List.mem_cons_of_mem _ (ih h)

/-- C4 counterexample: with the origins-mapping argument absent (None)
and a place carrying origin_id = some 9 while the destination store
holds no origin rows at all, `insert_new_places` succeeds and inserts
the row with its snapshot-local origin_id 9 unchanged, contradicting
the claim that the stored origin_id is never a snapshot-local id in the
None case. -/
theorem C4_counterexample :
    (insert_new_places ⟨[], [mkPlace 1 none], []⟩ [(9, mkPlace 9 (some 9))]
      none).result = Except.ok () ∧
    (insert_new_places ⟨[], [mkPlace 1 none], []⟩ [(9, mkPlace 9 (some 9))]
      none).store.moz_places = [mkPlace 1 none, mkPlace 2 (some 9)] ∧
    (⟨[], [mkPlace 1 none], []⟩ : Store).moz_origins = [] := by
  refine ⟨rfl, ?_, rfl⟩
  decide

/-- How one source place is rewritten into its inserted row by the
`Some`-mapping branch of the place stage: the inserted row stores no
origin reference exactly when the source had none, and otherwise stores
the id of the reconciled origin found by looking up the source place's
own `origin_id` in the mapping. -/
def placeRewrites (om : List (Int × Origin)) (src ins : Place) : Prop :=
  (src.origin_id = none ∧ ins.origin_id = none) ∨
  ∃ oid o, src.origin_id = some oid ∧ List.lookup oid om = some o ∧
    ins.origin_id = some o.id

theorem originKeyMatch_of_eq {o o₀ : Origin}
    (h1 : o.prefix_ = o₀.prefix_) (h2 : o.host = o₀.host)
    (h3 : o.frecency = o₀.frecency) : originKeyMatch o o₀ = true := by
  unfold originKeyMatch
  rw [h1, h2, h3]
  simp

theorem originKeyMatch_trans_eq {r o o₀ : Origin}
    (h : originKeyMatch r o = true)
    (h1 : o.prefix_ = o₀.prefix_) (h2 : o.host = o₀.host)
    (h3 : o.frecency = o₀.frecency) : originKeyMatch r o₀ = true := by
  unfold originKeyMatch at h ⊢
  rw [← h1, ← h2, ← h3]
  exact h

theorem placesStep_some_corr {conn conn' : Store} {om : List (Int × Origin)}
    {p p' : Place}
    (hstep : placesStep conn (some om) p = (p', Except.ok conn')) :
    conn' = insertPlaceRow conn p' ∧ placeRewrites om p p' := by
  cases hM : maxIdRow (conn.moz_places.map Place.id) with
  | none =>
    rw [placesStep_err (g := some om) (p := p) hM] at hstep
    simp at hstep
  | some m =>
    cases hO : p.origin_id with
    | none =>
      rw [placesStep_noref (g := om) hM hO] at hstep
      simp only [Prod.mk.injEq, Except.ok.injEq] at hstep
      obtain ⟨rfl, rfl⟩ := hstep
      exact ⟨rfl, Or.inl ⟨hO, hO⟩⟩
    | some oid =>
      cases hL : List.lookup oid om with
      | none =>
        rw [placesStep_missing hM hO hL] at hstep
        simp at hstep
      | some o =>
        rw [placesStep_found hM hO hL] at hstep
        simp only [Prod.mk.injEq, Except.ok.injEq] at hstep
        obtain ⟨rfl, rfl⟩ := hstep
        exact ⟨rfl, Or.inr ⟨oid, o, hO, hL, rfl⟩⟩

theorem insertPlacesLoop_corr (om : List (Int × Origin)) (ps : List (Int × Place))
    (conn : Store) :
    ∃ new src rest,
      (insertPlacesLoop (some om) conn ps).store.moz_places =
        conn.moz_places ++ new ∧
      ps.map Prod.snd = src ++ rest ∧
      List.Forall₂ (placeRewrites om) src new := by
  induction ps generalizing conn with
  | nil => exact ⟨[], [], [], by simp [insertPlacesLoop], rfl, List.Forall₂.nil⟩
  | cons kp ps ih =>
    obtain ⟨k, p⟩ := kp
    rcases hstep : placesStep conn (some om) p with ⟨p', res⟩
    cases res with
    | error e =>
      have hred := placesLoop_cons_err (k := k) (l := ps) hstep
      exact ⟨[], [], p :: ps.map Prod.snd, by rw [hred]; simp, by simp,
        List.Forall₂.nil⟩
    | ok conn2 =>
      rcases placesStep_some_corr hstep with ⟨rfl, hcorr⟩
      have hred := placesLoop_cons_ok (k := k) (l := ps) hstep
      rcases ih (insertPlaceRow conn p') with ⟨new, src, rest, h1, h2, h3⟩
      refine ⟨p' :: new, p :: src, rest, ?_, ?_, List.Forall₂.cons hcorr h3⟩
      · rw [hred, h1]
        simp [insertPlaceRow]
      · simp [h2]

theorem insertOriginsLoop_lookup_keys (os : List (Int × Origin)) (conn : Store)
    (x : Int) :
    ∀ o', List.lookup x (insertOriginsLoop conn os).entities = some o' →
      ∃ o, List.lookup x os = some o ∧
        o'.prefix_ = o.prefix_ ∧ o'.host = o.host ∧ o'.frecency = o.frecency := by
  induction os generalizing conn with
  | nil =>
    intro o' h
    simp [insertOriginsLoop, List.lookup] at h
  | cons ko os ih =>
    obtain ⟨k, o⟩ := ko
    intro o' h
    cases hEx : originExistingId conn o with
    | some nid =>
      rw [originsLoop_cons_ok (k := k) (l := os) (originsStep_dedup hEx)] at h
      cases hxk : x == k with
      | true =>
        simp [List.lookup, hxk] at h
        subst h
        exact ⟨o, by simp [List.lookup, hxk], rfl, rfl, rfl⟩
      | false =>
        simp [List.lookup, hxk] at h
        rcases ih conn o' h with ⟨o₀, hl, hf1, hf2, hf3⟩
        exact ⟨o₀, by simp [List.lookup, hxk, hl], hf1, hf2, hf3⟩
    | none =>
      cases hM : maxIdRow (conn.moz_origins.map Origin.id) with
      | none =>
        rw [originsLoop_cons_err (k := k) (l := os) (originsStep_err hEx hM)] at h
        cases hxk : x == k with
        | true =>
          simp [List.lookup, hxk] at h
          subst h
          exact ⟨o, by simp [List.lookup, hxk], rfl, rfl, rfl⟩
        | false =>
          simp [List.lookup, hxk] at h
          exact ⟨o', by simp [List.lookup, hxk, h], rfl, rfl, rfl⟩
      | some m =>
        rw [originsLoop_cons_ok (k := k) (l := os) (originsStep_insert hEx hM)] at h
        cases hxk : x == k with
        | true =>
          simp [List.lookup, hxk] at h
          subst h
          exact ⟨o, by simp [List.lookup, hxk], rfl, rfl, rfl⟩
        | false =>
          simp [List.lookup, hxk] at h
          rcases ih (insertOriginRow conn { o with id := m + 1 }) o' h with
            ⟨o₀, hl, hf1, hf2, hf3⟩
          exact ⟨o₀, by simp [List.lookup, hxk, hl], hf1, hf2, hf3⟩

/-- C4 (amended): when the origins-mapping argument is present, the
rows inserted by `insert_new_places` correspond one-to-one and in order
to an initial segment of the input places, and each inserted row's
origin_id is none exactly when its own source place had none, and
otherwise is the id of the reconciled origin found at that place's own
origin reference (`placeRewrites`); composed with a successful origin
stage, that id is the destination id of an origin row whose natural key
matches the snapshot origin the place referenced. When the mapping
argument is None the rewrite is skipped entirely and the snapshot-local
origin_id is stored (see the counterexample). -/
theorem C4_amended_origin_rewrite :
    (∀ conn ps om, ∃ new src rest,
      (insert_new_places conn ps (some om)).store.moz_places =
        conn.moz_places ++ new ∧
      ps.map Prod.snd = src ++ rest ∧
      List.Forall₂ (placeRewrites om) src new) ∧
    (∀ conn os ps, (insert_new_origins conn os).result = Except.ok () →
      ∃ new src rest,
        (insert_new_places (insert_new_origins conn os).store ps
            (some (insert_new_origins conn os).entities)).store.moz_places =
          (insert_new_origins conn os).store.moz_places ++ new ∧
        ps.map Prod.snd = src ++ rest ∧
        List.Forall₂ (fun q q' =>
          (q.origin_id = none ∧ q'.origin_id = none) ∨
          ∃ oid o o₀ r, q.origin_id = some oid ∧
            List.lookup oid (insert_new_origins conn os).entities = some o ∧
            List.lookup oid os = some o₀ ∧
            originKeyMatch o o₀ = true ∧
            r ∈ (insert_new_origins conn os).store.moz_origins ∧
            originKeyMatch r o₀ = true ∧ r.id = o.id ∧
            q'.origin_id = some o.id) src new) := by
  constructor
  · intro conn ps om
    exact insertPlacesLoop_corr om ps conn
  · intro conn os ps h
    rcases insertPlacesLoop_corr (insert_new_origins conn os).entities ps
      (insert_new_origins conn os).store with ⟨new, src, rest, h1, h2, h3⟩
    refine ⟨new, src, rest, h1, h2, List.Forall₂.imp ?_ h3⟩
    intro q q' hr
    rcases hr with ⟨hq, hq'⟩ | ⟨oid, o, hq, hl, hq'⟩
    · exact Or.inl ⟨hq, hq'⟩
    · rcases insertOriginsLoop_lookup_keys os conn oid o hl with ⟨o₀, hl0, hp1, hp2, hp3⟩
      rcases insertOriginsLoop_entities os conn h (oid, o) (lookup_mem hl) with
        ⟨r, hrmem, hrmatch, hrid⟩
      exact Or.inr ⟨oid, o, o₀, r, hq, hl, hl0, originKeyMatch_of_eq hp1 hp2 hp3,
        hrmem, originKeyMatch_trans_eq hrmatch hp1 hp2 hp3, hrid, hq'⟩

theorem C4_witness :
    ∃ new src rest,
      (insert_new_places (insert_new_origins
            ⟨[], [mkPlace 1 none], [⟨5, "http://", "example.com", 10⟩]⟩
            [(1, ⟨1, "http://", "example.com", 10⟩)]).store
          [(7, mkPlace 7 (some 1))]
          (some (insert_new_origins
            ⟨[], [mkPlace 1 none], [⟨5, "http://", "example.com", 10⟩]⟩
            [(1, ⟨1, "http://", "example.com", 10⟩)]).entities)).store.moz_places =
        (insert_new_origins ⟨[], [mkPlace 1 none], [⟨5, "http://", "example.com", 10⟩]⟩
          [(1, ⟨1, "http://", "example.com", 10⟩)]).store.moz_places ++ new ∧
      [(7, mkPlace 7 (some 1))].map Prod.snd = src ++ rest ∧
      List.Forall₂ (fun q q' =>
        (q.origin_id = none ∧ q'.origin_id = none) ∨
        ∃ oid o o₀ r, q.origin_id = some oid ∧
          List.lookup oid (insert_new_origins
            ⟨[], [mkPlace 1 none], [⟨5, "http://", "example.com", 10⟩]⟩
            [(1, ⟨1, "http://", "example.com", 10⟩)]).entities = some o ∧
          List.lookup oid [(1, (⟨1, "http://", "example.com", 10⟩ : Origin))] = some o₀ ∧
          originKeyMatch o o₀ = true ∧
          r ∈ (insert_new_origins ⟨[], [mkPlace 1 none], [⟨5, "http://", "example.com", 10⟩]⟩
            [(1, ⟨1, "http://", "example.com", 10⟩)]).store.moz_origins ∧
          originKeyMatch r o₀ = true ∧ r.id = o.id ∧
          q'.origin_id = some o.id) src new :=
  C4_amended_origin_rewrite.2 ⟨[], [mkPlace 1 none], [⟨5, "http://", "example.com", 10⟩]⟩
    [(1, ⟨1, "http://", "example.com", 10⟩)] [(7, mkPlace 7 (some 1))] rfl

/-- C5 counterexample: with the place-mapping argument absent (None), a
bookmark with fk = some 7 is inserted successfully with its
snapshot-local fk unchanged — the stage neither rewrites the fk nor
fails, contradicting the claim's None case. -/
theorem C5_counterexample :
    (insert_new_bookmarks ⟨[mkBookmark 100 none], [], []⟩ [mkBookmark 3 (some 7)]
      none).result = Except.ok () ∧
    (insert_new_bookmarks ⟨[mkBookmark 100 none], [], []⟩ [mkBookmark 3 (some 7)]
      none).store.moz_bookmarks = [mkBookmark 100 none, mkBookmark 101 (some 7)] := by
  refine ⟨rfl, ?_⟩
  decide

/-- C5 (amended): when the place mapping is present, bookmarks are
inserted with fk rewritten through the mapping (scenario: destination
max id 100, batch [{id 3, fk 7}, {id 4, fk 8}], mapping {7 ↦ 200,
8 ↦ 201} inserts {id 101, fk 200} then {id 102, fk 201}); a bookmark
whose fk key is missing from the mapping makes the stage fail, and no
inserted bookmark carries an fk outside the mapping. When the mapping
argument is None the rewrite is skipped and the snapshot-local fk is
inserted unchanged (see the counterexample). -/
theorem C5_amended_fk_rewrite :
    ((insert_new_bookmarks ⟨[mkBookmark 100 none], [], []⟩
        [mkBookmark 3 (some 7), mkBookmark 4 (some 8)]
        (some [(7, mkPlace 200 none), (8, mkPlace 201 none)])).store.moz_bookmarks =
        [mkBookmark 100 none, mkBookmark 101 (some 200), mkBookmark 102 (some 201)] ∧
      (insert_new_bookmarks ⟨[mkBookmark 100 none], [], []⟩
        [mkBookmark 3 (some 7), mkBookmark 4 (some 8)]
        (some [(7, mkPlace 200 none), (8, mkPlace 201 none)])).result = Except.ok ()) ∧
    (∀ conn bs pm, ∃ new,
      (insert_new_bookmarks conn bs (some pm)).store.moz_bookmarks =
        conn.moz_bookmarks ++ new ∧
      ∀ b' ∈ new, b'.fk = none ∨
        ∃ x q, List.lookup x pm = some q ∧ b'.fk = some q.id) ∧
    (∀ conn bs pm, (∃ b ∈ bs, ∃ f, b.fk = some f ∧ List.lookup f pm = none) →
      (insert_new_bookmarks conn bs (some pm)).result ≠ Except.ok ()) := by
  refine ⟨⟨by decide, rfl⟩, ?_, ?_⟩
  · intro conn bs pm
    rcases insertBookmarksLoop_spec (some pm) bs conn with ⟨new, h1, _, _, _, h5⟩
    exact ⟨new, h1, fun b' hb' => h5 b' hb' pm rfl⟩
  · intro conn bs pm hmiss hok
    rcases hmiss with ⟨b, hb, f, hf, hl⟩
    rcases insertBookmarksLoop_ok_refs pm bs conn hok b hb f hf with ⟨q, hq⟩
    rw [hl] at hq
    cases hq

theorem C5_witness :
    (insert_new_bookmarks ⟨[mkBookmark 100 none], [], []⟩ [mkBookmark 3 (some 7)]
      (some [])).result ≠ Except.ok () :=
  C5_amended_fk_rewrite.2.2 ⟨[mkBookmark 100 none], [], []⟩ [mkBookmark 3 (some 7)] []
    ⟨mkBookmark 3 (some 7), by simp, 7, rfl, rfl⟩

/-- C6 counterexample: when no origins were fetched at all (mapping
argument None), a place referencing origin id 9 is inserted without any
error and keeps origin_id = some 9, contradicting the claim that the
missing-reference failure also covers the absent-mapping case. -/
theorem C6_counterexample :
    (insert_new_places ⟨[], [mkPlace 1 none], []⟩ [(9, mkPlace 9 (some 9))]
      none).result = Except.ok () ∧
    (insert_new_places ⟨[], [mkPlace 1 none], []⟩ [(9, mkPlace 9 (some 9))]
      none).store.moz_places.map Place.origin_id = [none, some 9] := by
  refine ⟨rfl, ?_⟩
  decide

/-- C6 (amended): when the origins-mapping argument is present, a place
whose origin_id is missing from the mapping causes the stage to fail
(scenario: a place referencing origin 9 against an empty mapping yields
the missing-reference error and leaves the store unchanged), and no
inserted place ever carries an origin_id outside the mapping. When the
mapping argument is None (no origins fetched) the check is skipped and
the place is inserted with its snapshot-local origin_id (see the
counterexample). -/
theorem C6_amended_missing_origin :
    ((insert_new_places ⟨[], [mkPlace 1 none], []⟩ [(9, mkPlace 9 (some 9))]
        (some [])).result = Except.error "unable to find origin from place" ∧
      (insert_new_places ⟨[], [mkPlace 1 none], []⟩ [(9, mkPlace 9 (some 9))]
        (some [])).store = ⟨[], [mkPlace 1 none], []⟩) ∧
    (∀ conn ps om,
      (∃ p ∈ ps, ∃ oid, p.2.origin_id = some oid ∧ List.lookup oid om = none) →
      (insert_new_places conn ps (some om)).result ≠ Except.ok ()) ∧
    (∀ conn ps om, ∃ new,
      (insert_new_places conn ps (some om)).store.moz_places =
        conn.moz_places ++ new ∧
      ∀ p' ∈ new, p'.origin_id = none ∨
        ∃ x o, List.lookup x om = some o ∧ p'.origin_id = some o.id) := by
  refine ⟨⟨rfl, rfl⟩, ?_, ?_⟩
  · intro conn ps om hmiss hok
    rcases hmiss with ⟨p, hp, oid, hoid, hl⟩
    rcases insertPlacesLoop_ok_refs om ps conn hok p hp oid hoid with ⟨o, ho⟩
    rw [hl] at ho
    cases ho
  · intro conn ps om
    rcases insertPlacesLoop_spec (some om) ps conn with ⟨new, h1, _, _, _, h5⟩
    exact ⟨new, h1, fun p' hp' => h5 p' hp' om rfl⟩

theorem C6_witness :
    (insert_new_places ⟨[], [mkPlace 1 none], []⟩ [(9, mkPlace 9 (some 9))]
      (some [(3, (⟨77, "http://", "example.com", 10⟩ : Origin))])).result ≠
      Except.ok () :=
  C6_amended_missing_origin.2.1 ⟨[], [mkPlace 1 none], []⟩ [(9, mkPlace 9 (some 9))]
    [(3, ⟨77, "http://", "example.com", 10⟩)]
    ⟨(9, mkPlace 9 (some 9)), by simp, 9, rfl, rfl⟩

/-- C7: the orchestrator `insert_new_entries` runs the place stage after
the origin stage and the bookmark stage after the place stage
unconditionally — each using the previous stage's (possibly partially
mutated) entity map — and any origin- or place-stage error is logged
rather than aborting the run. -/
theorem C7_failed_stage_continuation (conn : Store) (bsl : List Bookmark)
    (psl : List (Int × Place)) (osl : List (Int × Origin)) :
    (insert_new_entries conn (some bsl) (some psl) (some osl)).store =
      (insert_new_bookmarks
        (insert_new_places (insert_new_origins conn osl).store psl
          (some (insert_new_origins conn osl).entities)).store
        bsl
        (some (insert_new_places (insert_new_origins conn osl).store psl
          (some (insert_new_origins conn osl).entities)).entities)).store ∧
    (∀ e, (insert_new_origins conn osl).result = Except.error e →
      ("Error during insert new origins : " ++ e) ∈
        (insert_new_entries conn (some bsl) (some psl) (some osl)).log) ∧
    (∀ e, (insert_new_places (insert_new_origins conn osl).store psl
          (some (insert_new_origins conn osl).entities)).result = Except.error e →
      ("Error during insert new places : " ++ e) ∈
        (insert_new_entries conn (some bsl) (some psl) (some osl)).log) := by
  refine ⟨rfl, ?_, ?_⟩
  · intro e he
    have hlog : (insert_new_entries conn (some bsl) (some psl) (some osl)).log =
        stageLog "Error during insert new origins : "
          (insert_new_origins conn osl).result ++
        stageLog "Error during insert new places : "
          (insert_new_places (insert_new_origins conn osl).store psl
            (some (insert_new_origins conn osl).entities)).result ++
        stageLog "Error during insert new bookmarks : "
          (insert_new_bookmarks
            (insert_new_places (insert_new_origins conn osl).store psl
              (some (insert_new_origins conn osl).entities)).store bsl
            (some (insert_new_places (insert_new_origins conn osl).store psl
              (some (insert_new_origins conn osl).entities)).entities)).result := rfl
    rw [hlog, he]
    simp [stageLog]
  · intro e he
    have hlog : (insert_new_entries conn (some bsl) (some psl) (some osl)).log =
        stageLog "Error during insert new origins : "
          (insert_new_origins conn osl).result ++
        stageLog "Error during insert new places : "
          (insert_new_places (insert_new_origins conn osl).store psl
            (some (insert_new_origins conn osl).entities)).result ++
        stageLog "Error during insert new bookmarks : "
          (insert_new_bookmarks
            (insert_new_places (insert_new_origins conn osl).store psl
              (some (insert_new_origins conn osl).entities)).store bsl
            (some (insert_new_places (insert_new_origins conn osl).store psl
              (some (insert_new_origins conn osl).entities)).entities)).result := rfl
    rw [hlog, he]
    simp [stageLog]

theorem C7_witness :
    ("Error during insert new origins : " ++ "InvalidColumnType") ∈
      (insert_new_entries ⟨[mkBookmark 1 none], [mkPlace 1 none], []⟩ (some [])
        (some []) (some [(1, ⟨1, "http://", "example.com", 10⟩)])).log :=
  (C7_failed_stage_continuation ⟨[mkBookmark 1 none], [mkPlace 1 none], []⟩ [] []
    [(1, ⟨1, "http://", "example.com", 10⟩)]).2.1 "InvalidColumnType" rfl

/-- C8 counterexample: a run whose bookmark-insert stage fails (empty
destination bookmarks table with a nonempty batch) still returns Ok
from `insert_new_entries`; the failure is only logged, contradicting
the claim that bookmark-stage failures are propagated to the caller. -/
theorem C8_counterexample :
    (insert_new_entries ⟨[], [], []⟩ (some [mkBookmark 3 none]) none none).result =
      Except.ok () ∧
    (insert_new_entries ⟨[], [], []⟩ (some [mkBookmark 3 none]) none none).log =
      ["Error during insert new bookmarks : " ++ "InvalidColumnType"] :=
  ⟨rfl, rfl⟩

/-- C8 (amended): the orchestrator swallows the failures of all three
stages, the bookmark stage included: `insert_new_entries` returns Ok on
every input, and a failing bookmark stage only leaves its error message
in the log. -/
theorem C8_amended_always_ok (conn : Store) (bs : Option (List Bookmark))
    (ps : Option (List (Int × Place))) (os : Option (List (Int × Origin)))
    (bsl : List Bookmark) (psl : List (Int × Place)) (osl : List (Int × Origin)) :
    (insert_new_entries conn bs ps os).result = Except.ok () ∧
    (∀ e, (insert_new_bookmarks
          (insert_new_places (insert_new_origins conn osl).store psl
            (some (insert_new_origins conn osl).entities)).store bsl
          (some (insert_new_places (insert_new_origins conn osl).store psl
            (some (insert_new_origins conn osl).entities)).entities)).result =
        Except.error e →
      ("Error during insert new bookmarks : " ++ e) ∈
        (insert_new_entries conn (some bsl) (some psl) (some osl)).log) := by
  constructor
  · rfl
  · intro e he
    have hlog : (insert_new_entries conn (some bsl) (some psl) (some osl)).log =
        stageLog "Error during insert new origins : "
          (insert_new_origins conn osl).result ++
        stageLog "Error during insert new places : "
          (insert_new_places (insert_new_origins conn osl).store psl
            (some (insert_new_origins conn osl).entities)).result ++
        stageLog "Error during insert new bookmarks : "
          (insert_new_bookmarks
            (insert_new_places (insert_new_origins conn osl).store psl
              (some (insert_new_origins conn osl).entities)).store bsl
            (some (insert_new_places (insert_new_origins conn osl).store psl
              (some (insert_new_origins conn osl).entities)).entities)).result := rfl
    rw [hlog, he]
    simp [stageLog]

theorem C8_witness :
    ("Error during insert new bookmarks : " ++ "InvalidColumnType") ∈
      (insert_new_entries ⟨[], [], []⟩ (some [mkBookmark 3 none]) (some [])
        (some [])).log :=
  (C8_amended_always_ok ⟨[], [], []⟩ (some [mkBookmark 3 none]) (some []) (some [])
    [mkBookmark 3 none] [] []).2 "InvalidColumnType" rfl
